import Mathlib

/-!
Verification of the filesystem assetstore adapter
(`girder/utility/filesystem_assetstore_adapter.py`).

The adapter is embedded shallowly:

* A filesystem is a partial map from paths to byte contents.  Paths are
  lists of components, `os.path.join` is list append.  Directories are not
  tracked separately: `os.makedirs` only affects directory entries and no
  claim depends on them.
* Bytes are natural numbers (values 0..255 in all real runs; nothing below
  depends on the bound).
* The incremental SHA-512 digest (`sha512_state` module, not part of the
  sources) is modelled from the spec: the state of an incremental hash is
  determined by the byte sequence absorbed so far, `serializeHex` /
  `restoreHex` preserve that state, and `hexdigest` applies a pure
  hash function to the absorbed sequence.  The hash function itself is an
  explicit parameter `hashHex` wherever it is needed.
-/

def BUF_SIZE : Nat := 65536

abbrev Bytes := List Nat

abbrev FsPath := List String

/-- A filesystem: a partial map from paths to file contents. -/
def FS : Type := FsPath → Option Bytes

/-- Write (create or overwrite) the file at path `p`. -/
def FS.set (fs : FS) (p : FsPath) (b : Bytes) : FS :=
  fun q => if q = p then some b else fs q

/-- Delete the file at path `p` (`os.remove` / `os.unlink`). -/
def FS.remove (fs : FS) (p : FsPath) : FS :=
  fun q => if q = p then none else fs q

/-- `os.path.exists` / `os.path.isfile` for a file path. -/
def FS.isfile (fs : FS) (p : FsPath) : Bool :=
  (fs p).isSome

/-- An upload session document.  `sha512state` is the serialized digest
state, modelled as the byte sequence absorbed so far (modelled from the
spec for the `sha512_state` module, which is not among the sources:
export/restore preserve the incremental state, so the state is exactly
the absorbed sequence). -/
structure Upload where
  tempFile : FsPath
  sha512state : Bytes
  received : Nat
  size : Nat
  deriving DecidableEq

/-- A file document, with the fields the adapter reads and writes. -/
structure FileRec where
  name : String
  path : FsPath
  size : Nat
  sha512 : List Char
  imported : Bool
  assetstoreId : Nat
  mtime : Nat
  deriving DecidableEq

/-- `fullPath` (source lines 214-222): imported files keep their own
absolute path, other files live under the assetstore root. -/
def fullPath (root : FsPath) (f : FileRec) : FsPath :=
  if f.imported then f.path else root ++ f.path

/-- `cancelUpload` (source lines 283-288): delete the scratch file if it
exists. -/
def cancelUpload (fs : FS) (upload : Upload) : FS :=
  if fs.isfile upload.tempFile then fs.remove upload.tempFile else fs

/-- A finding yielded by `findInvalidFiles`: reason `missing` or `size`. -/
inductive InvalidReason where
  | missing
  | size
  deriving DecidableEq

structure Finding where
  reason : InvalidReason
  file : FileRec
  path : FsPath
  deriving DecidableEq

/-- `findInvalidFiles` (source lines 344-387), applied to the list of file
records returned by the assetstore-scoped query.  For each record: if no
file exists at the resolved path, yield reason `missing`; otherwise, if
`checkSize` and the on-disk size differs from the recorded size, yield
reason `size`; otherwise yield nothing. -/
def findInvalidFiles (fs : FS) (root : FsPath) (files : List FileRec)
    (checkSize : Bool) : List Finding :=
  files.filterMap fun f =>
    match fs (fullPath root f) with
    | none => some ⟨InvalidReason.missing, f, fullPath root f⟩
    | some content =>
        if checkSize && content.length != f.size then
          some ⟨InvalidReason.size, f, fullPath root f⟩
        else
          none

/-- `deleteFile` (source lines 265-281).  `allFiles` stands for the
external metadata store; the query filters on equal `sha512` and equal
`assetstoreId`, with `limit=2`, and the file is removed from disk only
when the capped match count is exactly one. -/
def deleteFile (fs : FS) (root : FsPath) (assetstoreId : Nat)
    (allFiles : List FileRec) (file : FileRec) : FS :=
  if file.imported then fs
  else
    let matching :=
      (allFiles.filter fun f =>
        f.sha512 = file.sha512 ∧ f.assetstoreId = assetstoreId).take 2
    if matching.length = 1 then
      let path := root ++ file.path
      if fs.isfile path then fs.remove path else fs
    else fs

/-- The observable state of the root directory checked by `validateInfo`
(source lines 49-70), after `os.path.expanduser` has been applied:
whether the path is absolute, whether it is an existing directory,
whether `os.makedirs` would succeed when it is not, and whether the
(possibly just created) directory is writable. -/
structure RootInfo where
  isAbs : Bool
  isDir : Bool
  mkdirSucceeds : Bool
  writable : Bool
  deriving DecidableEq

inductive ValidationErr where
  | notAbsolute
  | cannotMakeDir
  | notWritable
  deriving DecidableEq

/-- `validateInfo` (source lines 49-70): reject a non-absolute root; if the
root is not a directory, try to create it and reject only when creation
fails; finally reject a root that is not writable.  Returns `none` when
the document is accepted. -/
def validateInfo (r : RootInfo) : Option ValidationErr :=
  if !r.isAbs then some ValidationErr.notAbsolute
  else if !r.isDir && !r.mkdirSucceeds then some ValidationErr.cannotMakeDir
  else if !r.writable then some ValidationErr.notWritable
  else none

/-- UTF-8 encoding of one character (`str.encode('utf8')` acts
per code point). -/
def utf8Bytes (c : Char) : Bytes :=
  let n := c.toNat
  if n < 0x80 then [n]
  else if n < 0x800 then
    [0xC0 ||| (n >>> 6), 0x80 ||| (n &&& 0x3F)]
  else if n < 0x10000 then
    [0xE0 ||| (n >>> 12), 0x80 ||| ((n >>> 6) &&& 0x3F), 0x80 ||| (n &&& 0x3F)]
  else
    [0xF0 ||| (n >>> 18), 0x80 ||| ((n >>> 12) &&& 0x3F),
     0x80 ||| ((n >>> 6) &&& 0x3F), 0x80 ||| (n &&& 0x3F)]

/-- `chunk.encode('utf8')` (source line 132). -/
def strToBytes (s : String) : Bytes :=
  s.data.flatMap utf8Bytes

/-- The chunk argument of `uploadChunk`: a Unicode string, a byte string,
or a file-like stream whose total length is not known up front. -/
inductive ChunkData where
  | text (s : String)
  | binary (b : Bytes)
  | stream (b : Bytes)
  deriving DecidableEq

/-- The byte sequence a chunk delivers when read to exhaustion. -/
def ChunkData.toBytes : ChunkData → Bytes
  | .text s => strToBytes s
  | .binary b => b
  | .stream b => b

/-- Modelled from the spec: `getChunkSize` lives in
`AbstractAssetstoreAdapter`, which is not among the sources.  Python's
`len` on a `str` counts characters and on a byte string counts bytes; a
file-like object has no known length. -/
def getChunkSize : ChunkData → Option Nat
  | .text s => some s.length
  | .binary b => some b.length
  | .stream _ => none

/-- Modelled from the spec: `checkUploadSize` lives in
`AbstractAssetstoreAdapter`, which is not among the sources.  Per the
spec it "validates the chunk would not push `received + len(chunk)` over
`size`"; with no known chunk length there is nothing to check.  Returns
`true` when the check passes. -/
def checkUploadSize (received size : Nat) (chunkSize : Option Nat) : Bool :=
  match chunkSize with
  | some n => received + n ≤ size
  | none => true

inductive UploadErr where
  | sizeExceeded
  deriving DecidableEq

/-- The write loop of `uploadChunk` (source lines 152-161): while
`received + size` has not passed the declared total, read up to
`BUF_SIZE` bytes from the chunk, append them to the scratch file and the
checksum, and add their count to `size`.  Returns the final `size`
together with all bytes written (equally, all bytes absorbed by the
checksum in the loop). -/
def writeLoop (received cap : Nat) (chunk : Bytes) (size : Nat)
    (written : Bytes) : Nat × Bytes :=
  if received + size > cap then (size, written)
  else if h : chunk = [] then (size, written)
  else
    writeLoop received cap (chunk.drop BUF_SIZE)
      (size + (chunk.take BUF_SIZE).length) (written ++ chunk.take BUF_SIZE)
termination_by chunk.length
decreasing_by
  simp only [List.length_drop]
  have hlen : 0 < chunk.length := List.length_pos.mpr h
  have : 0 < BUF_SIZE := by norm_num [BUF_SIZE]
  omega

/-- `uploadChunk` (source lines 124-173).  Returns the filesystem after
the call, the upload document (unchanged when an error is raised, since
the document is only mutated at the end of the function), and the raised
error, if any.  Steps, in source order: the early
`checkUploadSize(upload, getChunkSize(chunk))`; decoding a text chunk to
UTF-8 bytes; restoring the checksum from `sha512state`; the catch-up
read of the scratch-file bytes past `received` when the file is longer
than `received`; the write loop; the second `checkUploadSize(upload,
size)` which on failure truncates the scratch file back to `received`
bytes and re-raises; finally the updates of `sha512state` and
`received`. -/
def uploadChunk (fs : FS) (upload : Upload) (chunk : ChunkData) :
    FS × Upload × Option UploadErr :=
  if checkUploadSize upload.received upload.size (getChunkSize chunk) = false
  then (fs, upload, some UploadErr.sizeExceeded)
  else
    let cbytes := chunk.toBytes
    let onDisk := (fs upload.tempFile).getD []
    let checksum := upload.sha512state
    let checksum :=
      if onDisk.length > upload.received then
        checksum ++ onDisk.drop upload.received
      else checksum
    let res := writeLoop upload.received upload.size cbytes 0 []
    let size := res.1
    let written := res.2
    let fs1 := fs.set upload.tempFile (onDisk ++ written)
    let checksum := checksum ++ written
    if checkUploadSize upload.received upload.size (some size) = false then
      (fs1.set upload.tempFile ((onDisk ++ written).take upload.received),
       upload, some UploadErr.sizeExceeded)
    else
      (fs1,
       { upload with
           sha512state := checksum
           received := upload.received + size },
       none)

/-- The canonical content-addressed relative path derived from a hex
digest (source lines 186-191): `hash[0:2] / hash[2:4] / hash`. -/
def hashShardPath (hash : List Char) : FsPath :=
  [(hash.take 2).asString, ((hash.drop 2).take 2).asString, hash.asString]

/-- `finalizeUpload` (source lines 181-212), parametrized by the pure hex
digest function `hashHex` applied to the absorbed byte sequence
(`sha512_state.restoreHex(...).hexdigest()`).  `os.makedirs(absdir)` only
creates directory entries, which the file map does not track.  If a file
already exists at the canonical absolute path, the scratch file is
removed and the stored bytes are not touched; otherwise the scratch file
is moved into place.  Either way the file document gets the digest and
the relative canonical path. -/
def finalizeUpload (hashHex : Bytes → List Char) (root : FsPath) (fs : FS)
    (upload : Upload) (file : FileRec) : FS × FileRec :=
  let hash := hashHex upload.sha512state
  let path := hashShardPath hash
  let abspath := root ++ path
  let file' := { file with sha512 := hash, path := path }
  if fs.isfile abspath then
    (fs.remove upload.tempFile, file')
  else
    let content := (fs upload.tempFile).getD []
    ((fs.remove upload.tempFile).set abspath content, file')

inductive DownloadErr where
  | fileDoesNotExist
  deriving DecidableEq

/-- The generator body of `downloadFile` (source lines 245-261): starting
at `bytesRead`, repeatedly read `min BUF_SIZE (endByte - bytesRead)`
bytes, stopping when that count is not positive or the read comes back
empty.  Subtraction on `Nat` returns `0` exactly when the Python
difference would be `≤ 0`, matching the `readLen <= 0` break. -/
def readStream (content : Bytes) (endByte bytesRead : Nat) : List Bytes :=
  let readLen := min BUF_SIZE (endByte - bytesRead)
  if h : readLen = 0 then []
  else
    let data := (content.drop bytesRead).take readLen
    if data = [] then []
    else data :: readStream content endByte (bytesRead + readLen)
termination_by endByte - bytesRead
decreasing_by
  simp only [readLen] at h ⊢
  omega

/-- `downloadFile` (source lines 224-263): clamp `endByte` (missing or
larger than the recorded size) to the recorded size, fail if no file
exists at the resolved path, otherwise return the streamed chunk list.
The response-header side effects are outside the model. -/
def downloadFile (fs : FS) (root : FsPath) (file : FileRec) (offset : Nat)
    (endByte : Option Nat) : Except DownloadErr (List Bytes) :=
  let endB :=
    match endByte with
    | none => file.size
    | some b => if b > file.size then file.size else b
  let path := fullPath root file
  match fs path with
  | none => Except.error DownloadErr.fileDoesNotExist
  | some content => Except.ok (readStream content endB offset)

/-- What `os.stat` reports for an external file at import time. -/
structure StatInfo where
  size : Nat
  mtime : Nat
  deriving DecidableEq

/-- `importFile` (source lines 290-315): create a file record whose size
comes from `os.stat`, then set its path to the absolute resolved external
path, its `mtime` from the stat, and mark it imported.  `createFile` (the
metadata store, not among the sources) fills in name, creator and size;
no digest is computed, so the record's `sha512` stays empty. -/
def importFile (assetstoreId : Nat) (st : StatInfo) (abspath : FsPath)
    (name : String) : FileRec :=
  { name := name
    path := abspath
    size := st.size
    sha512 := []
    imported := true
    assetstoreId := assetstoreId
    mtime := st.mtime }

/-- An external directory tree as seen through `os.listdir` /
`os.path.isdir` / `os.stat`. -/
inductive FsTree where
  | file (name : String) (st : StatInfo)
  | dir (name : String) (children : List FsTree)

/- `importData` (source lines 317-342): a subdirectory becomes a folder
and is imported recursively with parent type `folder`; a file directly
under a non-folder parent raises a `ValidationException`; otherwise an
item is created and the file is imported.  The byte store `fs` is
threaded through untouched: the importer performs no filesystem writes.
Returns the file records created. -/
mutual
/-- One entry of `importData`, given the absolute path of the directory
being imported and the type of the parent container. -/
def importEntry (assetstoreId : Nat) (fs : FS) (base : FsPath)
    (parentType : String) : FsTree → Except String (FS × List FileRec)
  | .dir name children =>
      importEntries assetstoreId fs (base ++ [name]) "folder" children
  | .file name st =>
      if parentType ≠ "folder" then
        Except.error "Files cannot be imported directly underneath this."
      else
        Except.ok (fs, [importFile assetstoreId st (base ++ [name]) name])

/-- The loop of `importData` over the entries of one directory listing. -/
def importEntries (assetstoreId : Nat) (fs : FS) (base : FsPath)
    (parentType : String) : List FsTree → Except String (FS × List FileRec)
  | [] => Except.ok (fs, [])
  | e :: rest =>
      match importEntry assetstoreId fs base parentType e with
      | Except.error er => Except.error er
      | Except.ok r1 =>
          match importEntries assetstoreId r1.1 base parentType rest with
          | Except.error er => Except.error er
          | Except.ok r2 => Except.ok (r2.1, r1.2 ++ r2.2)
end

/-- The clamped end byte of `downloadFile` (source lines 230-231): a
missing `endByte`, or one past the recorded size, falls back to the
file's recorded size. -/
def clampEnd (size : Nat) : Option Nat → Nat
  | none => size
  | some b => if b > size then size else b

/- Specification-side collector used to state import fidelity: the
absolute resolved path, name and stat of every file in a tree. -/
mutual
/-- Absolute path, name and stat of every file under one entry. -/
def treeFiles (base : FsPath) : FsTree → List (FsPath × String × StatInfo)
  | .file name st => [(base ++ [name], name, st)]
  | .dir name children => treeFilesList (base ++ [name]) children

/-- `treeFiles` over a whole directory listing. -/
def treeFilesList (base : FsPath) :
    List FsTree → List (FsPath × String × StatInfo)
  | [] => []
  | e :: rest => treeFiles base e ++ treeFilesList base rest
end

/-! Concrete states used by the witness instances. -/

/-- A concrete scratch-file path. -/
def tmpPath1 : FsPath := ["temp", "t1"]

/-- A second, distinct scratch-file path. -/
def tmpPath2 : FsPath := ["temp", "t2"]

/-- A concrete assetstore root. -/
def sampleRoot : FsPath := ["store"]

/-- A concrete stand-in hex-digest function. -/
def sampleHash : Bytes → List Char := fun _ => ['a', 'b', 'c', 'd', 'e']

/-- Two scratch files holding the same two bytes. -/
def sampleFS : FS := fun p =>
  if p = tmpPath1 then some [7, 8]
  else if p = tmpPath2 then some [7, 8]
  else none

/-- A completed upload session over the first scratch file. -/
def sampleU1 : Upload :=
  { tempFile := tmpPath1, sha512state := [7, 8], received := 2, size := 2 }

/-- A completed upload session of identical content over the second
scratch file. -/
def sampleU2 : Upload :=
  { tempFile := tmpPath2, sha512state := [7, 8], received := 2, size := 2 }

/-- A plain non-imported file document. -/
def sampleFile : FileRec :=
  { name := "f", path := ["p"], size := 2, sha512 := ['a'],
    imported := false, assetstoreId := 1, mtime := 0 }

/-- A scratch file whose three on-disk bytes exceed the session's
recorded `received = 1` (crash state). -/
def crashFS : FS := fun p => if p = tmpPath1 then some [1, 2, 3] else none

/-- The crashed session: one byte recorded, digest state covering it. -/
def crashUp : Upload :=
  { tempFile := tmpPath1, sha512state := [1], received := 1, size := 4 }

/-- A healthy session that has received two of three declared bytes. -/
def fullUp : Upload :=
  { tempFile := tmpPath1, sha512state := [1, 2], received := 2, size := 3 }

/-- The scratch file matching `fullUp`. -/
def fullFS : FS := fun p => if p = tmpPath1 then some [1, 2] else none

/-- A stored three-byte file document. -/
def dlFile : FileRec :=
  { name := "d", path := ["dd"], size := 3, sha512 := ['a'],
    imported := false, assetstoreId := 1, mtime := 0 }

/-- The backing bytes of `dlFile` under the sample root. -/
def dlFS : FS :=
  fun p => if p = sampleRoot ++ ["dd"] then some [9, 8, 7] else none

/-- A file document whose recorded size is two bytes. -/
def scanFile : FileRec :=
  { name := "s", path := ["sf"], size := 2, sha512 := ['a'],
    imported := false, assetstoreId := 1, mtime := 0 }

/-- A backing file truncated to one byte (size mismatch). -/
def scanFS : FS :=
  fun p => if p = sampleRoot ++ ["sf"] then some [1] else none

/-- Same shape as `scanFS` with a different byte value. -/
def scanFS2 : FS :=
  fun p => if p = sampleRoot ++ ["sf"] then some [9] else none

/-- A directory tree with one file nested under one directory. -/
def sampleTree : List FsTree :=
  [FsTree.dir "a" [FsTree.file "b.txt" ⟨5, 11⟩, FsTree.dir "c" []]]

/-! ## Claims -/

/-- C9: `cancelUpload` deletes the scratch file when it exists and
succeeds when it is already absent; after one cancel the scratch file is
gone, and cancelling again leaves the state unchanged. -/
theorem cancelUpload_idempotent (fs : FS) (upload : Upload) :
    (cancelUpload fs upload) upload.tempFile = none ∧
    cancelUpload (cancelUpload fs upload) upload = cancelUpload fs upload := by
  have hgone : (cancelUpload fs upload) upload.tempFile = none := by
    unfold cancelUpload FS.isfile FS.remove
    cases hfs : fs upload.tempFile with
    | none => simp [hfs]
    | some b => simp [hfs]
  refine ⟨hgone, ?_⟩
  have hfalse : ((cancelUpload fs upload) upload.tempFile).isSome = false := by
    rw [hgone]
    rfl
  conv_lhs => rw [cancelUpload]
  simp [FS.isfile, hfalse]

/-- C7 counterexample: the claim "a root that does not exist as a
directory is rejected with a ValidationError" is false: when the missing
directory can be created, `validateInfo` creates it and accepts the
document. -/
theorem validateInfo_claim_false :
    ¬ ∀ r : RootInfo,
        (r.isAbs = false ∨ r.isDir = false ∨ r.writable = false) →
        (validateInfo r).isSome = true := by
  intro h
  have := h ⟨true, false, true, true⟩ (Or.inr (Or.inl rfl))
  simp [validateInfo] at this

/-- C7 (amended): `validateInfo` rejects the document with a
`ValidationError` exactly when the root is not absolute, or is not a
directory and cannot be created, or is not writable; in particular a
non-absolute or non-writable root never reaches write time. -/
theorem validateInfo_rejects_bad_roots (r : RootInfo) :
    (validateInfo r).isSome = true ↔
      (r.isAbs = false ∨ (r.isDir = false ∧ r.mkdirSucceeds = false) ∨
        r.writable = false) := by
  obtain ⟨a, b, c, d⟩ := r
  cases a <;> cases b <;> cases c <;> cases d <;> simp [validateInfo]

/-- C6: `deleteFile` performs no filesystem action on an imported record;
with two or more records of the same digest in the assetstore it leaves
the physical file untouched; when the record is the sole holder of the
digest it removes the physical file (a no-op when already absent) and
touches no other path. -/
theorem deleteFile_reference_safe (fs : FS) (root : FsPath) (aid : Nat)
    (allFiles : List FileRec) (file : FileRec) :
    (file.imported = true → deleteFile fs root aid allFiles file = fs) ∧
    (2 ≤ (allFiles.filter fun f =>
            f.sha512 = file.sha512 ∧ f.assetstoreId = aid).length →
      deleteFile fs root aid allFiles file = fs) ∧
    (file.imported = false →
      (allFiles.filter fun f =>
            f.sha512 = file.sha512 ∧ f.assetstoreId = aid).length = 1 →
      (deleteFile fs root aid allFiles file) (root ++ file.path) = none ∧
      ∀ p, p ≠ root ++ file.path →
        (deleteFile fs root aid allFiles file) p = fs p) := by
  unfold deleteFile
  refine ⟨fun h => by simp [h], ?_, ?_⟩
  · intro h2
    rcases hi : file.imported with hv | hv
    · have hlen : ((allFiles.filter fun f =>
          f.sha512 = file.sha512 ∧ f.assetstoreId = aid).take 2).length = 2 := by
        rw [List.length_take]
        omega
      simp only [hi, Bool.false_eq_true, if_false, hlen]
      norm_num
    · simp [hi]
  · intro hi h1
    have hlen : ((allFiles.filter fun f =>
        f.sha512 = file.sha512 ∧ f.assetstoreId = aid).take 2).length = 1 := by
      rw [List.length_take]
      omega
    simp only [hi, Bool.false_eq_true, if_false, hlen, if_true]
    constructor
    · cases hfs : (fs.isfile (root ++ file.path)) with
      | true =>
          simp [hfs, FS.remove]
      | false =>
          simp only [hfs, Bool.false_eq_true, if_false]
          unfold FS.isfile at hfs
          simpa using hfs
    · intro p hp
      cases hfs : (fs.isfile (root ++ file.path)) <;>
        simp [hfs, FS.remove, hp]

/-- The per-record step of `findInvalidFiles` depends only on existence
and length of the backing bytes, never on their values. -/
theorem findInvalidFiles_content_blind (fs fs2 : FS) (root : FsPath)
    (files : List FileRec) (checkSize : Bool)
    (h : ∀ p, (fs p).map List.length = (fs2 p).map List.length) :
    findInvalidFiles fs root files checkSize =
      findInvalidFiles fs2 root files checkSize := by
  unfold findInvalidFiles
  induction files with
  | nil => rfl
  | cons f rest ih =>
      simp only [List.filterMap_cons]
      have hp := h (fullPath root f)
      cases h1 : fs (fullPath root f) with
      | none =>
          cases h2 : fs2 (fullPath root f) with
          | none => simpa [h1, h2] using ih
          | some c2 => rw [h1, h2] at hp; simp at hp
      | some c1 =>
          cases h2 : fs2 (fullPath root f) with
          | none => rw [h1, h2] at hp; simp at hp
          | some c2 =>
              rw [h1, h2] at hp
              have hplen : c1.length = c2.length := by simpa using hp
              simp only [h1, h2, hplen]
              rw [ih]

/-- C5: among the records scoped to the assetstore, `findInvalidFiles`
yields a `missing` finding exactly for records with no backing file;
a `size` finding exactly for records whose backing file exists with a
byte length differing from the recorded size, and only when `checkSize`
is set; and its output never depends on the byte values of the backing
files (the digest is not consulted). -/
theorem findInvalidFiles_complete (fs fs2 : FS) (root : FsPath)
    (files : List FileRec) (checkSize : Bool) (f : FileRec)
    (hf : f ∈ files) :
    ((⟨InvalidReason.missing, f, fullPath root f⟩ : Finding) ∈
        findInvalidFiles fs root files checkSize ↔
      fs (fullPath root f) = none) ∧
    ((⟨InvalidReason.size, f, fullPath root f⟩ : Finding) ∈
        findInvalidFiles fs root files checkSize ↔
      checkSize = true ∧
        ∃ c, fs (fullPath root f) = some c ∧ c.length ≠ f.size) ∧
    ((∀ p, (fs p).map List.length = (fs2 p).map List.length) →
      findInvalidFiles fs root files checkSize =
        findInvalidFiles fs2 root files checkSize) := by
  refine ⟨?_, ?_, findInvalidFiles_content_blind fs fs2 root files checkSize⟩
  · rw [findInvalidFiles, List.mem_filterMap]
    constructor
    · rintro ⟨g, hg, hstep⟩
      cases h1 : fs (fullPath root g) with
      | none =>
          simp only [h1, Option.some.injEq, Finding.mk.injEq] at hstep
          rw [hstep.2.1] at h1
          exact h1
      | some c =>
          simp only [h1] at hstep
          by_cases hcond : (checkSize && c.length != g.size) = true
          · simp only [hcond, if_true, Option.some.injEq,
              Finding.mk.injEq] at hstep
            exact absurd hstep.1 (by simp)
          · simp only [hcond, if_false] at hstep
            simp at hstep
    · intro h1
      exact ⟨f, hf, by simp [h1]⟩
  · rw [findInvalidFiles, List.mem_filterMap]
    constructor
    · rintro ⟨g, hg, hstep⟩
      cases h1 : fs (fullPath root g) with
      | none =>
          simp only [h1, Option.some.injEq, Finding.mk.injEq] at hstep
          exact absurd hstep.1 (by simp)
      | some c =>
          simp only [h1] at hstep
          by_cases hcond : (checkSize && c.length != g.size) = true
          · simp only [hcond, if_true, Option.some.injEq,
              Finding.mk.injEq] at hstep
            obtain ⟨-, hgf, -⟩ := hstep
            subst hgf
            simp only [Bool.and_eq_true, bne_iff_ne, ne_eq] at hcond
            exact ⟨hcond.1, c, h1, hcond.2⟩
          · simp only [hcond, if_false] at hstep
            simp at hstep
    · rintro ⟨hcs, c, hc, hne⟩
      refine ⟨f, hf, ?_⟩
      simp [hc, hcs, hne]

/-- C1: finalizing two uploads of identical content (the same absorbed
byte sequence, hence scratch files with the same bytes) yields two file
records with the same digest and the same canonical sharded relative
path; after both finalizes the canonical absolute path holds exactly the
bytes published by the first finalize, the second finalize did not
rewrite them, and both scratch files are gone. -/
theorem finalizeUpload_dedup (hashHex : Bytes → List Char) (root : FsPath)
    (fs : FS) (u1 u2 : Upload) (file1 file2 : FileRec) (c : Bytes)
    (hsame : u2.sha512state = u1.sha512state)
    (h1 : fs u1.tempFile = some c)
    (h2 : fs u2.tempFile = some c)
    (hnew : fs (root ++ hashShardPath (hashHex u1.sha512state)) = none)
    (ht1 : u1.tempFile ≠ root ++ hashShardPath (hashHex u1.sha512state))
    (ht2 : u2.tempFile ≠ root ++ hashShardPath (hashHex u1.sha512state))
    (ht12 : u1.tempFile ≠ u2.tempFile) :
    ((finalizeUpload hashHex root fs u1 file1).2).sha512 =
        ((finalizeUpload hashHex root (finalizeUpload hashHex root fs u1 file1).1
          u2 file2).2).sha512 ∧
    ((finalizeUpload hashHex root fs u1 file1).2).path =
        ((finalizeUpload hashHex root (finalizeUpload hashHex root fs u1 file1).1
          u2 file2).2).path ∧
    ((finalizeUpload hashHex root fs u1 file1).2).path =
        hashShardPath (hashHex u1.sha512state) ∧
    ((finalizeUpload hashHex root (finalizeUpload hashHex root fs u1 file1).1
          u2 file2).1) (root ++ hashShardPath (hashHex u1.sha512state)) = some c ∧
    ((finalizeUpload hashHex root (finalizeUpload hashHex root fs u1 file1).1
          u2 file2).1) (root ++ hashShardPath (hashHex u1.sha512state)) =
        ((finalizeUpload hashHex root fs u1 file1).1)
          (root ++ hashShardPath (hashHex u1.sha512state)) ∧
    ((finalizeUpload hashHex root (finalizeUpload hashHex root fs u1 file1).1
          u2 file2).1) u2.tempFile = none ∧
    ((finalizeUpload hashHex root (finalizeUpload hashHex root fs u1 file1).1
          u2 file2).1) u1.tempFile = none := by
  have hfirst : finalizeUpload hashHex root fs u1 file1 =
      ((fs.remove u1.tempFile).set
          (root ++ hashShardPath (hashHex u1.sha512state)) c,
        { file1 with
            sha512 := hashHex u1.sha512state
            path := hashShardPath (hashHex u1.sha512state) }) := by
    simp [finalizeUpload, FS.isfile, hnew, h1]
  have hfs1at : ((fs.remove u1.tempFile).set
      (root ++ hashShardPath (hashHex u1.sha512state)) c)
      (root ++ hashShardPath (hashHex u1.sha512state)) = some c := by
    simp [FS.set]
  have hsecond : finalizeUpload hashHex root
      (finalizeUpload hashHex root fs u1 file1).1 u2 file2 =
      (((fs.remove u1.tempFile).set
          (root ++ hashShardPath (hashHex u1.sha512state)) c).remove u2.tempFile,
        { file2 with
            sha512 := hashHex u1.sha512state
            path := hashShardPath (hashHex u1.sha512state) }) := by
    rw [hfirst]
    simp only [finalizeUpload, FS.isfile, hsame]
    rw [hfs1at]
    simp
  rw [hsecond, hfirst]
  have h2ne : root ++ hashShardPath (hashHex u1.sha512state) ≠ u2.tempFile :=
    Ne.symm ht2
  refine ⟨rfl, rfl, rfl, ?_, ?_, ?_, ?_⟩
  · simp only [FS.remove, if_neg h2ne]
    exact hfs1at
  · simp only [FS.remove, if_neg h2ne]
  · simp [FS.remove]
  · simp [FS.remove, FS.set, ht12, ht1]

/-- Each UTF-8 encoded character occupies at least one byte. -/
theorem utf8Bytes_length_pos (c : Char) : 1 ≤ (utf8Bytes c).length := by
  simp only [utf8Bytes]
  split_ifs <;> simp

/-- A string has at most as many characters as UTF-8 bytes. -/
theorem length_le_strToBytes (s : String) : s.length ≤ (strToBytes s).length := by
  rw [String.length, strToBytes]
  induction s.data with
  | nil => simp
  | cons c cs ih =>
      simp only [List.length_cons, List.flatMap_cons, List.length_append]
      have := utf8Bytes_length_pos c
      omega

/-- When the whole chunk fits under the cap, the write loop writes all of
it. -/
theorem writeLoop_writes_all (fuel : Nat) :
    ∀ (r cap : Nat) (chunk : Bytes) (size : Nat) (written : Bytes),
      chunk.length ≤ fuel →
      r + size + chunk.length ≤ cap →
      writeLoop r cap chunk size written =
        (size + chunk.length, written ++ chunk) := by
  induction fuel with
  | zero =>
      intro r cap chunk size written hfuel hcap
      have : chunk = [] := List.eq_nil_of_length_eq_zero (Nat.le_zero.mp hfuel)
      subst this
      rw [writeLoop]
      simp
  | succ n ih =>
      intro r cap chunk size written hfuel hcap
      rw [writeLoop]
      by_cases hc : chunk = []
      · subst hc
        simp
      · have hpos : 0 < chunk.length := List.length_pos.mpr hc
        have hnot : ¬ r + size > cap := by omega
        rw [if_neg hnot, dif_neg hc]
        have hbuf : 0 < BUF_SIZE := by norm_num [BUF_SIZE]
        have htk : (chunk.take BUF_SIZE).length = min BUF_SIZE chunk.length := by
          simp
        have hrec := ih r cap (chunk.drop BUF_SIZE)
          (size + (chunk.take BUF_SIZE).length)
          (written ++ chunk.take BUF_SIZE)
          (by simp; omega)
          (by simp [htk]; omega)
        rw [hrec]
        rw [List.append_assoc, List.take_append_drop]
        have : size + (chunk.take BUF_SIZE).length + (chunk.drop BUF_SIZE).length =
            size + chunk.length := by
          simp [htk]
          omega
        rw [this]

/-- The write loop either consumes the whole chunk or stops having pushed
`received + size` past the cap. -/
theorem writeLoop_all_or_exceed (fuel : Nat) :
    ∀ (r cap : Nat) (chunk : Bytes) (size : Nat) (written : Bytes),
      chunk.length ≤ fuel →
      (writeLoop r cap chunk size written).1 = size + chunk.length ∨
        cap < r + (writeLoop r cap chunk size written).1 := by
  induction fuel with
  | zero =>
      intro r cap chunk size written hfuel
      have : chunk = [] := List.eq_nil_of_length_eq_zero (Nat.le_zero.mp hfuel)
      subst this
      rw [writeLoop]
      by_cases h : r + size > cap
      · right
        simp [h]
      · left
        simp [h]
  | succ n ih =>
      intro r cap chunk size written hfuel
      rw [writeLoop]
      by_cases h : r + size > cap
      · right
        simp [h]
      · rw [if_neg h]
        by_cases hc : chunk = []
        · left
          subst hc
          simp
        · rw [dif_neg hc]
          have hpos : 0 < chunk.length := List.length_pos.mpr hc
          have hbuf : 0 < BUF_SIZE := by norm_num [BUF_SIZE]
          have htk : (chunk.take BUF_SIZE).length = min BUF_SIZE chunk.length := by
            simp
          have hrec := ih r cap (chunk.drop BUF_SIZE)
            (size + (chunk.take BUF_SIZE).length)
            (written ++ chunk.take BUF_SIZE)
            (by simp; omega)
          rcases hrec with h1 | h1
          · left
            rw [h1]
            simp [htk]
            omega
          · right
            exact h1

/-- C2: for a session whose scratch file is longer on disk than the
recorded `received` (crash between disk write and bookkeeping), a
successful `uploadChunk` absorbs exactly the gap bytes before the new
chunk, so the resulting digest state is the entire byte sequence now on
disk — identical to digesting the whole sequence with no crash. -/
theorem uploadChunk_crash_catchup (fs : FS) (upload : Upload)
    (chunk : ChunkData) (td : Bytes)
    (hfile : fs upload.tempFile = some td)
    (hgap : upload.received < td.length)
    (hinv : upload.sha512state = td.take upload.received) :
    (uploadChunk fs upload chunk).2.2 = none →
      (uploadChunk fs upload chunk).2.1.sha512state =
          td ++ (writeLoop upload.received upload.size chunk.toBytes 0 []).2 ∧
      (uploadChunk fs upload chunk).1 upload.tempFile =
          some ((uploadChunk fs upload chunk).2.1.sha512state) := by
  intro hok
  by_cases hearly : checkUploadSize upload.received upload.size
      (getChunkSize chunk) = false
  · rw [uploadChunk, if_pos hearly] at hok
    simp at hok
  · rw [uploadChunk, if_neg hearly] at hok
    rw [uploadChunk, if_neg hearly]
    simp only [hfile, Option.getD_some, gt_iff_lt, hgap, if_true] at hok ⊢
    by_cases hsec : checkUploadSize upload.received upload.size
        (some (writeLoop upload.received upload.size chunk.toBytes 0 []).1) =
        false
    · rw [if_pos hsec] at hok
      simp at hok
    · rw [if_neg hsec]
      constructor
      · simp only [hinv, List.take_append_drop]
      · simp [FS.set, hinv, ← List.append_assoc, List.take_append_drop]

/-- C3: when the chunk's bytes would push `received + len(chunk)` over the
declared size, `uploadChunk` raises the size-exceeded error, the scratch
file ends at exactly the already-accepted `received` bytes, no other path
is touched, and the upload document (its `received` and serialized digest
state) is returned unchanged.  The hypothesis `td.length =
upload.received` is the normal session invariant: digest and disk agree
before the failing chunk. -/
theorem uploadChunk_size_exceeded (fs : FS) (upload : Upload)
    (chunk : ChunkData) (td : Bytes)
    (hfile : fs upload.tempFile = some td)
    (hinv : td.length = upload.received)
    (hover : upload.size < upload.received + chunk.toBytes.length) :
    (uploadChunk fs upload chunk).2.2 = some UploadErr.sizeExceeded ∧
    (uploadChunk fs upload chunk).2.1 = upload ∧
    (uploadChunk fs upload chunk).1 upload.tempFile = some td ∧
    ∀ p, p ≠ upload.tempFile → (uploadChunk fs upload chunk).1 p = fs p := by
  have htake : ∀ w : Bytes, (td ++ w).take upload.received = td := by
    intro w
    rw [List.take_append_eq_append_take]
    simp [hinv]
  by_cases hearly : checkUploadSize upload.received upload.size
      (getChunkSize chunk) = false
  · rw [uploadChunk, if_pos hearly]
    exact ⟨rfl, rfl, hfile, fun p _ => rfl⟩
  · rw [uploadChunk, if_neg hearly]
    have hsec : checkUploadSize upload.received upload.size
        (some (writeLoop upload.received upload.size chunk.toBytes 0 []).1) =
        false := by
      rcases writeLoop_all_or_exceed chunk.toBytes.length upload.received
          upload.size chunk.toBytes 0 [] (le_refl _) with hall | hex
      · simp only [checkUploadSize, hall]
        simp
        omega
      · simp only [checkUploadSize]
        simp
        omega
    simp only [hfile, Option.getD_some, if_pos hsec]
    refine ⟨trivial, trivial, ?_, ?_⟩
    · simp [FS.set, htake]
    · intro p hp
      simp [FS.set, hp]

/-- C10: a Unicode text chunk is accepted and behaves exactly like the
byte chunk holding its UTF-8 encoding: starting from a session in the
normal state (scratch file holds exactly `received` bytes), `uploadChunk`
returns the same filesystem, the same upload document and the same error
for both.  (Python's `len` counts characters on `str`, so the early size
check sees a smaller count for text, but every outcome coincides.) -/
theorem uploadChunk_text_eq_utf8 (fs : FS) (upload : Upload) (t : String)
    (td : Bytes)
    (hfile : fs upload.tempFile = some td)
    (hinv : td.length = upload.received) :
    uploadChunk fs upload (ChunkData.text t) =
      uploadChunk fs upload (ChunkData.binary (strToBytes t)) := by
  have hlen := length_le_strToBytes t
  have htake : ∀ w : Bytes, (td ++ w).take upload.received = td := by
    intro w
    rw [List.take_append_eq_append_take]
    simp [hinv]
  by_cases hfit : upload.received + (strToBytes t).length ≤ upload.size
  · have h1 : ¬ checkUploadSize upload.received upload.size
        (getChunkSize (ChunkData.text t)) = false := by
      simp only [getChunkSize, checkUploadSize]
      simp
      omega
    have h2 : ¬ checkUploadSize upload.received upload.size
        (getChunkSize (ChunkData.binary (strToBytes t))) = false := by
      simp only [getChunkSize, checkUploadSize]
      simp
      omega
    rw [uploadChunk, uploadChunk, if_neg h1, if_neg h2]
    rfl
  · by_cases hcl : upload.received + t.length ≤ upload.size
    · have h1 : ¬ checkUploadSize upload.received upload.size
          (getChunkSize (ChunkData.text t)) = false := by
        simp only [getChunkSize, checkUploadSize]
        simp
        omega
      have h2 : checkUploadSize upload.received upload.size
          (getChunkSize (ChunkData.binary (strToBytes t))) = false := by
        simp only [getChunkSize, checkUploadSize]
        simp
        omega
      rw [uploadChunk, uploadChunk, if_neg h1, if_pos h2]
      have hsec : checkUploadSize upload.received upload.size
          (some (writeLoop upload.received upload.size
            (ChunkData.text t).toBytes 0 []).1) = false := by
        rcases writeLoop_all_or_exceed (ChunkData.text t).toBytes.length
            upload.received upload.size (ChunkData.text t).toBytes 0 []
            (le_refl _) with hall | hex
        · simp only [checkUploadSize, hall]
          simp only [ChunkData.toBytes]
          simp
          omega
        · simp only [checkUploadSize]
          simp
          omega
      simp only [hfile, Option.getD_some, if_pos hsec]
      congr 1
      funext p
      by_cases hp : p = upload.tempFile
      · subst hp
        simp [FS.set, htake, hfile.symm]
      · simp [FS.set, hp]
    · have h1 : checkUploadSize upload.received upload.size
          (getChunkSize (ChunkData.text t)) = false := by
        simp only [getChunkSize, checkUploadSize]
        simp
        omega
      have h2 : checkUploadSize upload.received upload.size
          (getChunkSize (ChunkData.binary (strToBytes t))) = false := by
        simp only [getChunkSize, checkUploadSize]
        simp
        omega
      rw [uploadChunk, uploadChunk, if_pos h1, if_pos h2]

/-- Concatenating the streamed chunks reproduces exactly the slice
`[bytesRead, endByte)` of the backing content (clipped to the content's
end). -/
theorem readStream_flatten (fuel : Nat) :
    ∀ (content : Bytes) (endByte bytesRead : Nat),
      endByte - bytesRead ≤ fuel →
      (readStream content endByte bytesRead).flatten =
        (content.drop bytesRead).take (endByte - bytesRead) := by
  have hbuf : 0 < BUF_SIZE := by norm_num [BUF_SIZE]
  induction fuel with
  | zero =>
      intro content e br hf
      have he : e - br = 0 := Nat.le_zero.mp hf
      rw [readStream]
      dsimp only
      rw [dif_pos (by omega : min BUF_SIZE (e - br) = 0)]
      simp [he]
  | succ n ih =>
      intro content e br hf
      rw [readStream]
      dsimp only
      by_cases h0 : min BUF_SIZE (e - br) = 0
      · rw [dif_pos h0]
        have he : e - br = 0 := by omega
        simp [he]
      · rw [dif_neg h0]
        by_cases hd : (content.drop br).take (min BUF_SIZE (e - br)) = []
        · rw [if_pos hd]
          have hnil : content.drop br = [] := by
            rcases List.take_eq_nil_iff.mp hd with h | h
            · exact absurd h h0
            · exact h
          rw [hnil]
          simp
        · rw [if_neg hd]
          rw [List.flatten_cons]
          rw [ih content e (br + min BUF_SIZE (e - br)) (by omega)]
          set m := min BUF_SIZE (e - br) with hm
          have h1 : (content.drop br).drop m = content.drop (br + m) := by
            rw [List.drop_drop, Nat.add_comm]
          have h2 : e - (br + m) = (e - br) - m := by omega
          rw [show e - br = m + ((e - br) - m) from by omega]
          rw [List.take_add, h1, h2]

/-- Every chunk the stream yields is at most `BUF_SIZE` bytes. -/
theorem readStream_chunk_bound (fuel : Nat) :
    ∀ (content : Bytes) (endByte bytesRead : Nat),
      endByte - bytesRead ≤ fuel →
      ∀ ch ∈ readStream content endByte bytesRead, ch.length ≤ BUF_SIZE := by
  have hbuf : 0 < BUF_SIZE := by norm_num [BUF_SIZE]
  induction fuel with
  | zero =>
      intro content e br hf ch hch
      rw [readStream] at hch
      dsimp only at hch
      rw [dif_pos (by omega : min BUF_SIZE (e - br) = 0)] at hch
      simp at hch
  | succ n ih =>
      intro content e br hf ch hch
      rw [readStream] at hch
      dsimp only at hch
      by_cases h0 : min BUF_SIZE (e - br) = 0
      · rw [dif_pos h0] at hch
        simp at hch
      · rw [dif_neg h0] at hch
        by_cases hd : (content.drop br).take (min BUF_SIZE (e - br)) = []
        · rw [if_pos hd] at hch
          simp at hch
        · rw [if_neg hd] at hch
          rcases List.mem_cons.mp hch with rfl | hmem
          · have : ((content.drop br).take
                (min BUF_SIZE (e - br))).length ≤ min BUF_SIZE (e - br) := by
              simp
            omega
          · exact ih content e (br + min BUF_SIZE (e - br)) (by omega) ch hmem

/-- The clamped end offset never exceeds the recorded size. -/
theorem clampEnd_le (size : Nat) (e : Option Nat) : clampEnd size e ≤ size := by
  cases e with
  | none => simp [clampEnd]
  | some b =>
      simp only [clampEnd]
      split_ifs <;> omega

/-- C4: for a stored file whose backing bytes are intact (on-disk length
equals the recorded size) and offsets `a ≤ b ≤ size` (with `b` the
clamped end byte, defaulting to the size), `downloadFile` succeeds and
its chunks concatenate to exactly the `b - a` content bytes from
position `a`, each chunk at most `BUF_SIZE` long. -/
theorem downloadFile_range (fs : FS) (root : FsPath) (f : FileRec)
    (content : Bytes) (a : Nat) (eIn : Option Nat)
    (hc : fs (fullPath root f) = some content)
    (hintact : content.length = f.size)
    (ha : a ≤ clampEnd f.size eIn) :
    ∃ chunks, downloadFile fs root f a eIn = Except.ok chunks ∧
      chunks.flatten = (content.drop a).take (clampEnd f.size eIn - a) ∧
      chunks.flatten.length = clampEnd f.size eIn - a ∧
      ∀ ch ∈ chunks, ch.length ≤ BUF_SIZE := by
  refine ⟨readStream content (clampEnd f.size eIn) a, ?_, ?_, ?_, ?_⟩
  · rw [downloadFile.eq_def]
    dsimp only
    rw [hc]
    cases eIn <;> rfl
  · exact readStream_flatten (clampEnd f.size eIn - a) content
      (clampEnd f.size eIn) a (le_refl _)
  · rw [readStream_flatten (clampEnd f.size eIn - a) content
      (clampEnd f.size eIn) a (le_refl _)]
    have h1 := clampEnd_le f.size eIn
    simp
    omega
  · exact readStream_chunk_bound (clampEnd f.size eIn - a) content
      (clampEnd f.size eIn) a (le_refl _)

mutual
/-- Import fidelity for one directory entry: on success the byte store is
returned untouched and every created record carries the external
absolute resolved path, the stat size and mtime, the imported mark, and
no digest. -/
theorem importEntry_fidelity (aid : Nat) (fs : FS) (base : FsPath)
    (pt : String) (e : FsTree) (fs2 : FS) (recs : List FileRec)
    (h : importEntry aid fs base pt e = Except.ok (fs2, recs)) :
    fs2 = fs ∧
    recs.map (fun r => (r.path, r.name, (⟨r.size, r.mtime⟩ : StatInfo))) =
      treeFiles base e ∧
    ∀ r ∈ recs, r.imported = true ∧ r.sha512 = [] := by
  cases e with
  | dir name children =>
      rw [importEntry] at h
      have := importEntries_fidelity aid fs (base ++ [name]) "folder"
        children fs2 recs h
      rw [treeFiles]
      exact this
  | file name st =>
      rw [importEntry] at h
      by_cases hp : pt ≠ "folder"
      · rw [if_pos hp] at h
        exact absurd h (by simp)
      · rw [if_neg hp] at h
        simp only [Except.ok.injEq, Prod.mk.injEq] at h
        obtain ⟨hfs, hrecs⟩ := h
        subst hfs
        subst hrecs
        refine ⟨rfl, ?_, ?_⟩
        · simp [importFile, treeFiles]
        · simp [importFile]

/-- Import fidelity over a whole directory listing. -/
theorem importEntries_fidelity (aid : Nat) (fs : FS) (base : FsPath)
    (pt : String) (l : List FsTree) (fs2 : FS) (recs : List FileRec)
    (h : importEntries aid fs base pt l = Except.ok (fs2, recs)) :
    fs2 = fs ∧
    recs.map (fun r => (r.path, r.name, (⟨r.size, r.mtime⟩ : StatInfo))) =
      treeFilesList base l ∧
    ∀ r ∈ recs, r.imported = true ∧ r.sha512 = [] := by
  cases l with
  | nil =>
      rw [importEntries] at h
      simp only [Except.ok.injEq, Prod.mk.injEq] at h
      obtain ⟨hfs, hrecs⟩ := h
      subst hfs
      subst hrecs
      simp [treeFilesList]
  | cons e rest =>
      rw [importEntries] at h
      cases h1 : importEntry aid fs base pt e with
      | error er =>
          rw [h1] at h
          simp at h
      | ok r1 =>
          rw [h1] at h
          dsimp only at h
          cases h2 : importEntries aid r1.1 base pt rest with
          | error er =>
              rw [h2] at h
              simp at h
          | ok r2 =>
              rw [h2] at h
              simp only [Except.ok.injEq, Prod.mk.injEq] at h
              obtain ⟨hfs, hrecs⟩ := h
              have ih1 := importEntry_fidelity aid fs base pt e r1.1 r1.2
                (by rw [h1])
              have ih2 := importEntries_fidelity aid r1.1 base pt rest
                r2.1 r2.2 (by rw [h2])
              subst hfs
              subst hrecs
              refine ⟨by rw [ih2.1, ih1.1], ?_, ?_⟩
              · rw [treeFilesList, List.map_append, ih1.2.1]
                rw [ih1.1] at ih2
                rw [ih2.2.1]
              · intro r hr
                rcases List.mem_append.mp hr with hm | hm
                · exact ih1.2.2 r hm
                · exact ih2.2.2 r hm
end

/-- C8: adopting a directory tree with the importer leaves the byte store
untouched (no bytes copied, moved or hashed — in particular every created
record has an empty digest field), and every created file record is
marked `imported = true`, stores the file's absolute resolved external
path, and captures size and mtime from the filesystem stat at import
time. -/
theorem importData_fidelity (aid : Nat) (fs : FS) (base : FsPath)
    (entries : List FsTree) (fs2 : FS) (recs : List FileRec)
    (h : importEntries aid fs base "folder" entries =
      Except.ok (fs2, recs)) :
    fs2 = fs ∧
    recs.map (fun r => (r.path, r.name, (⟨r.size, r.mtime⟩ : StatInfo))) =
      treeFilesList base entries ∧
    ∀ r ∈ recs, r.imported = true ∧ r.sha512 = [] :=
  importEntries_fidelity aid fs base "folder" entries fs2 recs h

/-- C1 witness: the dedup theorem at a concrete store with two identical
two-byte uploads. -/
theorem finalizeUpload_dedup_witness :
    ((finalizeUpload sampleHash sampleRoot sampleFS sampleU1 sampleFile).2).sha512 =
        ((finalizeUpload sampleHash sampleRoot
          (finalizeUpload sampleHash sampleRoot sampleFS sampleU1 sampleFile).1
          sampleU2 sampleFile).2).sha512 ∧
    ((finalizeUpload sampleHash sampleRoot
          (finalizeUpload sampleHash sampleRoot sampleFS sampleU1 sampleFile).1
          sampleU2 sampleFile).1)
        (sampleRoot ++ hashShardPath (sampleHash sampleU1.sha512state)) =
      some [7, 8] ∧
    ((finalizeUpload sampleHash sampleRoot
          (finalizeUpload sampleHash sampleRoot sampleFS sampleU1 sampleFile).1
          sampleU2 sampleFile).1) sampleU2.tempFile = none := by
  have h := finalizeUpload_dedup sampleHash sampleRoot sampleFS sampleU1
    sampleU2 sampleFile sampleFile [7, 8] (by decide) (by decide) (by decide)
    (by decide) (by decide) (by decide) (by decide)
  exact ⟨h.1, h.2.2.2.1, h.2.2.2.2.2.1⟩

/-- C2 witness: the crash catch-up theorem at a session with one recorded
byte, three bytes on disk, and a one-byte chunk. -/
theorem uploadChunk_crash_catchup_witness :
    (uploadChunk crashFS crashUp (ChunkData.binary [5])).2.1.sha512state =
        [1, 2, 3] ++ (writeLoop crashUp.received crashUp.size
          (ChunkData.binary [5]).toBytes 0 []).2 ∧
    (uploadChunk crashFS crashUp (ChunkData.binary [5])).1 crashUp.tempFile =
        some ((uploadChunk crashFS crashUp (ChunkData.binary [5])).2.1.sha512state) := by
  have hw : writeLoop 1 4 [5] 0 [] = (1, [5]) := by
    simpa using writeLoop_writes_all 1 1 4 [5] 0 [] (by norm_num) (by norm_num)
  have hnone : (uploadChunk crashFS crashUp (ChunkData.binary [5])).2.2 = none := by
    rw [uploadChunk]
    simp [crashUp, crashFS, tmpPath1, getChunkSize, checkUploadSize,
      ChunkData.toBytes, hw]
  exact uploadChunk_crash_catchup crashFS crashUp (ChunkData.binary [5])
    [1, 2, 3] (by decide) (by decide) (by decide) hnone

/-- C3 witness: the size-exceeded theorem at a session with two of three
declared bytes received and a two-byte chunk. -/
theorem uploadChunk_size_exceeded_witness :
    (uploadChunk fullFS fullUp (ChunkData.binary [5, 6])).2.2 =
        some UploadErr.sizeExceeded ∧
    (uploadChunk fullFS fullUp (ChunkData.binary [5, 6])).2.1 = fullUp ∧
    (uploadChunk fullFS fullUp (ChunkData.binary [5, 6])).1 fullUp.tempFile =
        some [1, 2] := by
  have h := uploadChunk_size_exceeded fullFS fullUp (ChunkData.binary [5, 6])
    [1, 2] (by decide) (by decide) (by decide)
  exact ⟨h.1, h.2.1, h.2.2.1⟩

/-- C4 witness: the range-streaming theorem on a three-byte file, offset
one, requested end byte five (clamped to three). -/
theorem downloadFile_range_witness :
    ∃ chunks, downloadFile dlFS sampleRoot dlFile 1 (some 5) =
        Except.ok chunks ∧
      chunks.flatten = (([9, 8, 7] : Bytes).drop 1).take
        (clampEnd dlFile.size (some 5) - 1) ∧
      chunks.flatten.length = clampEnd dlFile.size (some 5) - 1 ∧
      ∀ ch ∈ chunks, ch.length ≤ BUF_SIZE :=
  downloadFile_range dlFS sampleRoot dlFile [9, 8, 7] 1 (some 5) (by decide)
    (by decide) (by decide)

/-- C5 witness: the scan theorem at a store with one truncated backing
file, and a second store of equal shape with different byte values. -/
theorem findInvalidFiles_complete_witness :
    ((⟨InvalidReason.size, scanFile, fullPath sampleRoot scanFile⟩ : Finding) ∈
        findInvalidFiles scanFS sampleRoot [scanFile] true) ∧
    findInvalidFiles scanFS sampleRoot [scanFile] true =
      findInvalidFiles scanFS2 sampleRoot [scanFile] true := by
  have h := findInvalidFiles_complete scanFS scanFS2 sampleRoot [scanFile]
    true scanFile (by simp)
  refine ⟨h.2.1.mpr ⟨rfl, [1], by decide, by decide⟩, h.2.2 ?_⟩
  intro p
  by_cases hp : p = sampleRoot ++ ["sf"] <;> simp [scanFS, scanFS2, hp]

/-- C8 witness: import fidelity on a tree with one file nested under one
directory. -/
theorem importData_fidelity_witness :
    ([importFile 1 ⟨5, 11⟩ (sampleRoot ++ ["a", "b.txt"]) "b.txt"].map
        (fun r => (r.path, r.name, (⟨r.size, r.mtime⟩ : StatInfo)))) =
      treeFilesList sampleRoot sampleTree :=
  (importData_fidelity 1 sampleFS sampleRoot sampleTree sampleFS
    [importFile 1 ⟨5, 11⟩ (sampleRoot ++ ["a", "b.txt"]) "b.txt"]
    (by rfl)).2.1

/-- C10 witness: text/UTF-8 equivalence at a healthy session and the
one-character string "a". -/
theorem uploadChunk_text_eq_utf8_witness :
    uploadChunk fullFS fullUp (ChunkData.text "a") =
      uploadChunk fullFS fullUp (ChunkData.binary (strToBytes "a")) :=
  uploadChunk_text_eq_utf8 fullFS fullUp "a" [1, 2] (by decide) (by decide)
